import Mathlib

/-!
Verification of the file-organizing pipeline (`Task_1.py`) and the
MapReduce word-frequency pipeline (`Task_2.py`).

The Python sources are shallowly embedded: pure path manipulations become
Lean functions on `String`/`List Char`; the filesystem that `Task_1.py`
mutates becomes an explicit state (`DestFS`) threaded through the copy
routines; the `asyncio.Semaphore` concurrency gate becomes a small-step
transition system.  The unbounded `while True` loop of `_unique_path`
becomes a fuel-indexed search, and the fuel is proved sufficient.
-/

namespace Task1

/-! ### Path-name helpers (Python `pathlib` semantics)

`pathlib.PurePath.suffix` of a name is `name[i:]` where `i` is the index of
the last `'.'`, provided `0 < i < len(name) - 1`; otherwise it is `""`.
`stem` is the complementary `name[:i]` under the same condition.
-/

/-- Index of the last occurrence of `'.'` (Python `str.rfind('.')`). -/
def lastDotIdx : List Char → Option Nat
  | [] => none
  | c :: cs =>
    match lastDotIdx cs with
    | some i => some (i + 1)
    | none => if c = '.' then some 0 else none

/-- Python `PurePath(name).suffix`: the final extension including the
leading dot, or `""`. -/
def pySuffix (name : String) : String :=
  let cs := name.data
  match lastDotIdx cs with
  | some i => if 0 < i ∧ i + 1 < cs.length then String.mk (cs.drop i) else ""
  | none => ""

/-- Python `PurePath(name).stem`: the name without its final extension. -/
def pyStem (name : String) : String :=
  let cs := name.data
  match lastDotIdx cs with
  | some i => if 0 < i ∧ i + 1 < cs.length then String.mk (cs.take i) else name
  | none => name

/-- Python `str.lower()` (`Char.toLower` case folding, as applied to
extensions). -/
def strLower (s : String) : String :=
  String.mk (s.data.map Char.toLower)

/-- Python `str.lstrip(".")`: drop every leading `'.'`. -/
def lstripDots (s : String) : String :=
  String.mk (s.data.dropWhile (fun c => c = '.'))

/-- `Task_1.py`, line 75:
`ext = src_file.suffix.lower().lstrip(".") or "no_extension"` —
the extension bucket a file is routed into. -/
def bucketName (name : String) : String :=
  let e := lstripDots (strLower (pySuffix name))
  if e = "" then "no_extension" else e

/-- Path join `a / b` of `pathlib` (POSIX separator). -/
def pyJoin (a b : String) : String :=
  a ++ "/" ++ b

/-- `Task_1.py`, line 76: `target_dir = dst_root / ext` — the bucket
directory a file with the given name is copied into. -/
def targetDirOf (dstRoot name : String) : String :=
  pyJoin dstRoot (bucketName name)

/-! ### The Unique-Name Resolver (`_unique_path`, lines 94–103)

The modelled filesystem for existence checks is a finite list of paths.
The Python loop `while True: ... n += 1` is embedded with a fuel
parameter; `uniquePath` supplies fuel `fs.length + 1`, which
`uniquePathAux_spec`/`exists_free_candidate` prove sufficient, so the
embedding computes exactly what the unbounded loop computes.
-/

/-- One `path.exists()` check against the modelled filesystem. -/
def pexists (fs : List String) (p : String) : Bool :=
  decide (p ∈ fs)

/-- Line 100: `candidate = parent / f"{stem} ({n}){suffix}"`. -/
def candidate (parent stem sfx : String) (n : Nat) : String :=
  pyJoin parent (stem ++ " (" ++ Nat.repr n ++ ")" ++ sfx)

/-- The counter loop of `_unique_path` (lines 98–103), fuel-indexed. -/
def uniquePathAux (fs : List String) (parent stem sfx : String) :
    Nat → Nat → Option String
  | _, 0 => none
  | n, fuel + 1 =>
    let c := candidate parent stem sfx n
    if pexists fs c then uniquePathAux fs parent stem sfx (n + 1) fuel
    else some c

/-- `_unique_path` (lines 94–103): return the path itself if absent,
otherwise the first absent `"{stem} ({n}){suffix}"` candidate, `n ≥ 1`.
The desired path is passed together with its `parent`/`stem`/`suffix`
decomposition. -/
def uniquePath (fs : List String) (path parent stem sfx : String) :
    Option String :=
  if pexists fs path then uniquePathAux fs parent stem sfx 1 (fs.length + 1)
  else some path

/-! ### Destination filesystem state and the copy pipeline -/

/-- The mutable destination-side filesystem: existing directory paths and
existing file paths.  `Path.exists` sees both. -/
structure DestFS where
  dirs : List String
  files : List String
deriving DecidableEq

/-- All existing paths, as checked by `path.exists()`. -/
def DestFS.paths (fs : DestFS) : List String :=
  fs.dirs ++ fs.files

/-- `path.mkdir(parents=True, exist_ok=True)`: idempotent directory
creation (parent creation is elided: the model tracks the created
directory itself). -/
def mkdirP (fs : DestFS) (d : String) : DestFS :=
  if d ∈ fs.dirs then fs else ⟨d :: fs.dirs, fs.files⟩

/-- One enumerated source file, with the oracle of its filesystem fate:
whether it still exists at scheduling time (line 48), whether it is a
regular file when its unit runs (line 72), and whether `shutil.copy2`
succeeds (line 79). -/
structure SrcFile where
  dir : String
  name : String
  existsAtWalk : Bool
  isFile : Bool
  copyOk : Bool
deriving DecidableEq

/-- Outcome of one `copy_file` call. -/
inductive CopyOutcome
  | skipped
  | copied (target : String)
  | raised
deriving DecidableEq

/-- What one slot of `asyncio.gather(..., return_exceptions=True)` holds:
a normal return value or a propagated exception. -/
inductive GatherItem
  | value
  | exception
deriving DecidableEq

/-- `copy_file` (lines 71–80): skip non-regular files, ensure the bucket
directory, resolve a collision-free target, copy.  `CopyOutcome.raised`
models an exception propagating out of `copy_file` (e.g. `shutil.copy2`
failing); the fuel-exhaustion branch of `uniquePath` is also mapped to it
and is proved unreachable. -/
def copyFile (dstRoot : String) (src : SrcFile) (fs : DestFS) :
    DestFS × CopyOutcome :=
  if src.isFile = false then (fs, CopyOutcome.skipped)
  else
    let targetDir := targetDirOf dstRoot src.name
    let fs1 := mkdirP fs targetDir
    match uniquePath fs1.paths (pyJoin targetDir src.name) targetDir
        (pyStem src.name) (pySuffix src.name) with
    | none => (fs1, CopyOutcome.raised)
    | some target =>
      if src.copyOk then (⟨fs1.dirs, target :: fs1.files⟩, CopyOutcome.copied target)
      else (fs1, CopyOutcome.raised)

/-- `_guarded_copy` (lines 64–69): run `copy_file` under the gate inside
`try/except Exception`; an exception becomes a log entry and a normal
return, so `asyncio.gather` always receives a value. -/
def guardedCopy (dstRoot : String) (src : SrcFile) (fs : DestFS) :
    DestFS × CopyOutcome × GatherItem :=
  match copyFile dstRoot src fs with
  | (fs1, CopyOutcome.raised) => (fs1, CopyOutcome.raised, GatherItem.value)
  | (fs1, o) => (fs1, o, GatherItem.value)

/-- The per-file units, folded sequentially (one serialization of the
task pool); returns the final state and the per-unit
(outcome, gather-slot) pairs in task order. -/
def runTasks (dstRoot : String) : DestFS → List SrcFile →
    DestFS × List (CopyOutcome × GatherItem)
  | fs, [] => (fs, [])
  | fs, t :: ts =>
    let s1 := guardedCopy dstRoot t fs
    let s2 := runTasks dstRoot s1.1 ts
    (s2.1, s1.2 :: s2.2)

/-- The source tree as seen by `read_folder`: root validity and the
`os.walk` enumeration. -/
structure SrcTree where
  rootExists : Bool
  rootIsDir : Bool
  walked : List SrcFile
deriving DecidableEq

/-- Lines 44–51: the walk with the per-path `file_path.exists()` check;
paths that vanished before scheduling are skipped. -/
def enumerate (t : SrcTree) : List SrcFile :=
  t.walked.filter (fun f => f.existsAtWalk)

/-- What `read_folder` reports: the two root-validation errors, the
"no files found" notice, or the completion summary.  `found` is the count
logged at line 57, `processedLogged` the count logged at line 62, and
`gatherExceptions` how many gather results the loop at lines 59–61 sees
as exceptions. -/
inductive RunReport
  | srcMissing
  | srcNotDir
  | noFiles
  | done (found processedLogged gatherExceptions : Nat)
deriving DecidableEq

/-- `read_folder` (lines 25–62) over the modelled destination state. -/
def read_folder (t : SrcTree) (dstRoot : String) (fs : DestFS) :
    DestFS × RunReport :=
  if t.rootExists = false then (fs, RunReport.srcMissing)
  else if t.rootIsDir = false then (fs, RunReport.srcNotDir)
  else
    let fs0 := mkdirP fs dstRoot
    let tasks := enumerate t
    if tasks.isEmpty then (fs0, RunReport.noFiles)
    else
      let r := runTasks dstRoot fs0 tasks
      (r.1, RunReport.done tasks.length tasks.length
        (r.2.countP (fun p => p.2 = GatherItem.exception)))

/-- Is a unit's outcome a successful copy? -/
def isCopied : CopyOutcome → Bool
  | CopyOutcome.copied _ => true
  | _ => false

/-- Did a unit's `copy_file` raise? -/
def isRaised : CopyOutcome → Bool
  | CopyOutcome.raised => true
  | _ => false

/-! ### The concurrency gate (`asyncio.Semaphore`, lines 41 and 66)

An interleaving small-step system: each unit is `waiting` until it
acquires a slot, `running` while it holds one during its copy step, and
`done`/`failed` after releasing it.  `async with sem` decrements the
counter on entry (blocking at zero) and increments it on exit along both
the normal and the exceptional path.
-/

/-- Phase of one copy unit. -/
inductive UnitPhase
  | waiting
  | running
  | done
  | failed
deriving DecidableEq

/-- One scheduler step: acquire a slot (needs a positive counter),
or release it on normal completion or on failure. -/
inductive PoolStep : Nat × List UnitPhase → Nat × List UnitPhase → Prop
  | acquire (sem : Nat) (l r : List UnitPhase) :
      PoolStep (sem + 1, l ++ UnitPhase.waiting :: r)
        (sem, l ++ UnitPhase.running :: r)
  | releaseOk (sem : Nat) (l r : List UnitPhase) :
      PoolStep (sem, l ++ UnitPhase.running :: r)
        (sem + 1, l ++ UnitPhase.done :: r)
  | releaseErr (sem : Nat) (l r : List UnitPhase) :
      PoolStep (sem, l ++ UnitPhase.running :: r)
        (sem + 1, l ++ UnitPhase.failed :: r)

/-- States reachable from `Semaphore(N)` with any number of scheduled
units. -/
inductive PoolReachable (N : Nat) : Nat × List UnitPhase → Prop
  | start (k : Nat) : PoolReachable N (N, List.replicate k UnitPhase.waiting)
  | step {s t : Nat × List UnitPhase} :
      PoolReachable N s → PoolStep s t → PoolReachable N t

/-- Number of units currently inside their copy step. -/
def runningCount (units : List UnitPhase) : Nat :=
  units.countP (fun u => decide (u = UnitPhase.running))

end Task1

namespace Task2

/-! ### `Task_2.py`: the MapReduce word-frequency pipeline

`defaultdict(list)` buckets are an insertion-ordered association list;
the final `dict(...)` is likewise modelled as the association list of
reduced pairs, queried with `List.lookup`.  The Python restriction set is
modelled as a list queried by membership.
-/

/-- `map_function` (lines 41–42). -/
def map_function (w : String) : String × Nat :=
  (w, 1)

/-- `buckets[key].append(value)` on a `defaultdict(list)`: append to the
key's bucket if present (keeping its position), else add a new bucket at
the end. -/
def shuffleInsert : List (String × List Nat) → String × Nat →
    List (String × List Nat)
  | [], kv => [(kv.1, [kv.2])]
  | (k, vs) :: rest, kv =>
    if k = kv.1 then (k, vs ++ [kv.2]) :: rest
    else (k, vs) :: shuffleInsert rest kv

/-- `shuffle_function` (lines 45–49). -/
def shuffle_function (mapped : List (String × Nat)) :
    List (String × List Nat) :=
  mapped.foldl shuffleInsert []

/-- `reduce_function` (lines 52–54). -/
def reduce_function (kv : String × List Nat) : String × Nat :=
  (kv.1, kv.2.sum)

/-- The word list actually processed by `map_reduce` (lines 62–63):
`if restrict_to:` is Python truthiness, so `None` *and the empty set*
leave the words unfiltered. -/
def effectiveWords (words : List String)
    (restrict_to : Option (List String)) : List String :=
  match restrict_to with
  | some s => if s.isEmpty then words else words.filter (fun w => s.contains w)
  | none => words

/-- `map_reduce` (lines 57–73): filter, map, shuffle, reduce; the
resulting dict is the association list of reduced pairs. -/
def map_reduce (words : List String)
    (restrict_to : Option (List String)) : List (String × Nat) :=
  let ws := effectiveWords words restrict_to
  let mapped := ws.map map_function
  let shuffled := shuffle_function mapped
  shuffled.map reduce_function

/-- The word list the *claim* describes: filtered whenever a restriction
set is given, empty or not.  (Spec wording, for comparison with
`effectiveWords`.) -/
def specFiltered (words : List String)
    (restrict_to : Option (List String)) : List String :=
  match restrict_to with
  | some s => words.filter (fun w => s.contains w)
  | none => words

end Task2

namespace SpecC2

/-! ### The Path Classifier as the spec's words state it (for claim C2) -/

/-- "the text after the last `'.'` in the file name" (spec wording). -/
def afterLastDot (name : String) : String :=
  match Task1.lastDotIdx name.data with
  | some i => String.mk (name.data.drop (i + 1))
  | none => ""

/-- The bucket name exactly as claim C2 words it: the sentinel
`"no_extension"` exactly when the name contains no `'.'` or starts with
`'.'` with nothing (no further `'.'`) after it, else the lowercase of the
text after the last `'.'`. -/
def claimBucket (name : String) : String :=
  if name.data.contains '.' = false
      ∨ (name.data.head? = some '.' ∧ name.data.tail.contains '.' = false)
  then "no_extension"
  else Task1.strLower (afterLastDot name)

/-- The bucket name as amended: the lowercase of the text after the last
`'.'` when that dot is neither the leading nor the final character of the
name, and the sentinel `"no_extension"` otherwise (Python
`PurePath.suffix` semantics). -/
def amendedBucket (name : String) : String :=
  match Task1.lastDotIdx name.data with
  | some i =>
    if 0 < i ∧ i + 1 < name.data.length
    then Task1.strLower (String.mk (name.data.drop (i + 1)))
    else "no_extension"
  | none => "no_extension"

end SpecC2

namespace StrAux

/-- Decimal digit characters of `n`, most significant first (used to
relate `Nat.repr` — the rendering of the counter in `_unique_path`'s
f-string — to `Nat.digits`). -/
def decChars (n : Nat) : List Char :=
  ((Nat.digits 10 n).map Nat.digitChar).reverse

end StrAux

section Sanity
example : Task1.bucketName "a.txt" = "txt" := by decide
example : Task1.bucketName "b.TXT" = "txt" := by decide
example : Task1.bucketName "c" = "no_extension" := by decide
example : Task1.bucketName ".bashrc" = "no_extension" := by decide
example : Task1.bucketName "a." = "no_extension" := by decide
example : Task1.bucketName "x.tar.gz" = "gz" := by decide
example : Task1.pyStem "a.txt" = "a" := by decide
example : Task1.pySuffix "a.txt" = ".txt" := by decide
example : Task1.candidate "d/txt" "a" ".txt" 1 = "d/txt/a (1).txt" := by decide
example :
    Task1.uniquePath ["d/txt/a.txt"] "d/txt/a.txt" "d/txt" "a" ".txt"
      = some "d/txt/a (1).txt" := by decide
example :
    Task1.uniquePath ["x"] "d/txt/a.txt" "d/txt" "a" ".txt"
      = some "d/txt/a.txt" := by decide
example :
    Task2.map_reduce ["b", "a", "b"] none = [("b", 2), ("a", 1)] := by decide
example :
    Task2.map_reduce ["b", "a", "b"] (some ["a"]) = [("a", 1)] := by decide
example :
    Task2.map_reduce ["b", "a"] (some []) = [("b", 1), ("a", 1)] := by decide
end Sanity

namespace StrAux

lemma toDigitsCore_eq_decChars :
    ∀ (fuel n : Nat) (acc : List Char), 0 < n → n < fuel →
      Nat.toDigitsCore 10 fuel n acc = decChars n ++ acc := by
  intro fuel
  induction fuel with
  | zero => intro n acc _ hf; exact absurd hf (Nat.not_lt_zero n)
  | succ fuel ih =>
    intro n acc hn hf
    have hdig : Nat.digits 10 n = n % 10 :: Nat.digits 10 (n / 10) :=
      Nat.digits_def' (by norm_num) hn
    by_cases h0 : n / 10 = 0
    · have : decChars n = [Nat.digitChar (n % 10)] := by
        simp [decChars, hdig, h0]
      simp [Nat.toDigitsCore, h0, this]
    · have hpos : 0 < n / 10 := Nat.pos_of_ne_zero h0
      have hlt : n / 10 < fuel := by
        have := Nat.div_lt_self hn (by norm_num : (1:Nat) < 10)
        omega
      have hrec := ih (n / 10) (Nat.digitChar (n % 10) :: acc) hpos hlt
      have hsplit : decChars n = decChars (n / 10) ++ [Nat.digitChar (n % 10)] := by
        simp [decChars, hdig]
      simp only [Nat.toDigitsCore, h0, if_false]
      rw [hrec, hsplit, List.append_assoc, List.singleton_append]

lemma repr_eq_decChars (n : Nat) (hn : 0 < n) :
    Nat.repr n = (decChars n).asString := by
  show (Nat.toDigits 10 n).asString = _
  rw [show Nat.toDigits 10 n = Nat.toDigitsCore 10 (n + 1) n [] from rfl,
    toDigitsCore_eq_decChars (n + 1) n [] hn (Nat.lt_succ_self n),
    List.append_nil]

lemma digitChar_inj_small :
    ∀ d, d < 10 → ∀ e, e < 10 → Nat.digitChar d = Nat.digitChar e → d = e := by
  decide

lemma map_digitChar_inj :
    ∀ (l₁ l₂ : List Nat), (∀ d ∈ l₁, d < 10) → (∀ d ∈ l₂, d < 10) →
      l₁.map Nat.digitChar = l₂.map Nat.digitChar → l₁ = l₂ := by
  intro l₁
  induction l₁ with
  | nil =>
    intro l₂ _ _ h
    cases l₂ with
    | nil => rfl
    | cons b m => simp at h
  | cons a l ih =>
    intro l₂ h1 h2 h
    cases l₂ with
    | nil => simp at h
    | cons b m =>
      simp only [List.map_cons, List.cons.injEq] at h
      have ha : a = b :=
        digitChar_inj_small a (h1 a (by simp)) b (h2 b (by simp)) h.1
      have hm : l = m :=
        ih m (fun d hd => h1 d (by simp [hd])) (fun d hd => h2 d (by simp [hd])) h.2
      rw [ha, hm]

lemma decChars_inj {m n : Nat} (h : decChars m = decChars n) : m = n := by
  unfold decChars at h
  rw [List.reverse_inj] at h
  exact Nat.digits_inj_iff.mp
    (map_digitChar_inj _ _
      (fun d hd => Nat.digits_lt_base (by norm_num) hd)
      (fun d hd => Nat.digits_lt_base (by norm_num) hd) h)

lemma asString_inj {l₁ l₂ : List Char} (h : l₁.asString = l₂.asString) :
    l₁ = l₂ := by
  simpa [List.asString] using congrArg String.data h

lemma decChars_ne_zero_chars {n : Nat} (hn : 0 < n) : decChars n ≠ ['0'] := by
  intro h
  unfold decChars at h
  have h2 : (Nat.digits 10 n).map Nat.digitChar = ['0'] := by
    have := congrArg List.reverse h
    simpa using this
  have h3 : Nat.digits 10 n = [0] := by
    have : ([0] : List Nat).map Nat.digitChar = ['0'] := by decide
    exact map_digitChar_inj _ _
      (fun d hd => Nat.digits_lt_base (by norm_num) hd)
      (fun d hd => by simp at hd; omega) (h2.trans this.symm)
  have h4 := Nat.ofDigits_digits 10 n
  rw [h3] at h4
  simp [Nat.ofDigits] at h4
  omega

theorem repr_injective : Function.Injective Nat.repr := by
  intro m n h
  rcases Nat.eq_zero_or_pos m with hm | hm <;>
    rcases Nat.eq_zero_or_pos n with hn | hn
  · omega
  · exfalso
    subst hm
    rw [repr_eq_decChars n hn] at h
    have h0 : Nat.repr 0 = List.asString ['0'] := rfl
    exact decChars_ne_zero_chars hn (asString_inj (h0.symm.trans h)).symm
  · exfalso
    subst hn
    rw [repr_eq_decChars m hm] at h
    have h0 : Nat.repr 0 = List.asString ['0'] := rfl
    exact decChars_ne_zero_chars hm (asString_inj (h.trans h0))
  · rw [repr_eq_decChars m hm, repr_eq_decChars n hn] at h
    exact decChars_inj (asString_inj h)

lemma candidate_injective (p s x : String) :
    Function.Injective (Task1.candidate p s x) := by
  intro m n h
  unfold Task1.candidate Task1.pyJoin at h
  have hd := congrArg String.data h
  simp only [String.data_append, List.append_assoc] at hd
  have h1 := List.append_cancel_left hd
  have h2 := List.append_cancel_left h1
  have h3 := List.append_cancel_left h2
  have h4 := List.append_cancel_left h3
  simp only [← List.append_assoc] at h4
  have h5 := List.append_cancel_right h4
  have h6 := List.append_cancel_right h5
  exact repr_injective (String.ext h6)

lemma exists_free_candidate (fs : List String) (p s x : String) (a : Nat) :
    ∃ m, a ≤ m ∧ m < a + (fs.length + 1) ∧
      Task1.pexists fs (Task1.candidate p s x m) = false := by
  by_contra hcon
  push_neg at hcon
  have hmem : ∀ j < fs.length + 1, Task1.candidate p s x (a + j) ∈ fs := by
    intro j hj
    have hne := hcon (a + j) (Nat.le_add_right a j) (by omega)
    simp only [Task1.pexists, ne_eq, decide_eq_false_iff_not, not_not] at hne
    exact hne
  have hinj : Function.Injective (fun j => Task1.candidate p s x (a + j)) := by
    intro j₁ j₂ hj
    have := candidate_injective p s x hj
    omega
  have hnd : ((List.range (fs.length + 1)).map
      (fun j => Task1.candidate p s x (a + j))).Nodup :=
    List.Nodup.map hinj (List.nodup_range _)
  have hsub : ((List.range (fs.length + 1)).map
      (fun j => Task1.candidate p s x (a + j))).toFinset ⊆ fs.toFinset := by
    intro y hy
    rw [List.mem_toFinset] at hy
    rw [List.mem_toFinset]
    obtain ⟨j, hj, rfl⟩ := List.mem_map.mp hy
    exact hmem j (List.mem_range.mp hj)
  have h1 : ((List.range (fs.length + 1)).map
      (fun j => Task1.candidate p s x (a + j))).toFinset.card = fs.length + 1 := by
    rw [List.toFinset_card_of_nodup hnd]
    simp
  have h2 := Finset.card_le_card hsub
  have h3 := List.toFinset_card_le fs
  omega

lemma uniquePathAux_spec (fs : List String) (p s x : String) :
    ∀ (fuel a : Nat),
      (∃ m, a ≤ m ∧ m < a + fuel ∧
        Task1.pexists fs (Task1.candidate p s x m) = false) →
      ∃ n₀, Task1.uniquePathAux fs p s x a fuel
          = some (Task1.candidate p s x n₀) ∧
        a ≤ n₀ ∧ Task1.pexists fs (Task1.candidate p s x n₀) = false ∧
        ∀ k, a ≤ k → k < n₀ →
          Task1.pexists fs (Task1.candidate p s x k) = true := by
  intro fuel
  induction fuel with
  | zero =>
    intro a h
    obtain ⟨m, h1, h2, _⟩ := h
    omega
  | succ fuel ih =>
    intro a h
    obtain ⟨m, h1, h2, h3⟩ := h
    by_cases hc : Task1.pexists fs (Task1.candidate p s x a) = true
    · have hma : m ≠ a := by
        intro he
        rw [he] at h3
        rw [h3] at hc
        cases hc
      obtain ⟨n₀, heq, hge, hfree, hall⟩ :=
        ih (a + 1) ⟨m, by omega, by omega, h3⟩
      refine ⟨n₀, ?_, by omega, hfree, ?_⟩
      · simp only [Task1.uniquePathAux, hc, if_true]
        exact heq
      · intro k hk1 hk2
        rcases Nat.eq_or_lt_of_le hk1 with he | hk
        · rw [← he]; exact hc
        · exact hall k hk hk2
    · have hc' : Task1.pexists fs (Task1.candidate p s x a) = false :=
        Bool.eq_false_iff.mpr hc
      refine ⟨a, ?_, le_refl a, hc', ?_⟩
      · simp [Task1.uniquePathAux, hc']
      · intro k hk1 hk2
        omega

/-- The Resolver always succeeds with an absent path: the supplied fuel
covers the search. -/
lemma uniquePath_total (fs : List String) (path p s x : String) :
    ∃ c, Task1.uniquePath fs path p s x = some c ∧
      Task1.pexists fs c = false := by
  unfold Task1.uniquePath
  by_cases hp : Task1.pexists fs path = true
  · obtain ⟨n₀, heq, _, hfree, _⟩ :=
      uniquePathAux_spec fs p s x (fs.length + 1) 1
        (exists_free_candidate fs p s x 1)
    exact ⟨Task1.candidate p s x n₀, by rw [hp]; exact heq, hfree⟩
  · have hp' : Task1.pexists fs path = false := Bool.eq_false_iff.mpr hp
    exact ⟨path, by simp [hp'], hp'⟩

end StrAux

namespace Task1

lemma mkdirP_files (fs : DestFS) (d : String) : (mkdirP fs d).files = fs.files := by
  unfold mkdirP
  split <;> rfl

lemma mkdirP_dirs_mem (fs : DestFS) (d : String) :
    ∀ p ∈ (mkdirP fs d).dirs, p = d ∨ p ∈ fs.dirs := by
  unfold mkdirP
  split
  · intro p hp
    exact Or.inr hp
  · intro p hp
    rcases List.mem_cons.mp hp with h | h
    · exact Or.inl h
    · exact Or.inr h

lemma guardedCopy_eq (dstRoot : String) (src : SrcFile) (fs : DestFS) :
    guardedCopy dstRoot src fs
      = ((copyFile dstRoot src fs).1, (copyFile dstRoot src fs).2,
         GatherItem.value) := by
  unfold guardedCopy
  rcases h : copyFile dstRoot src fs with ⟨fs1, o⟩
  cases o <;> simp

lemma copyFile_cases (dstRoot : String) (src : SrcFile) (fs : DestFS) :
    ((src.isFile && src.copyOk) = true →
      ∃ tgt, copyFile dstRoot src fs
          = (⟨(mkdirP fs (targetDirOf dstRoot src.name)).dirs, tgt :: fs.files⟩,
             CopyOutcome.copied tgt)
        ∧ tgt ∉ fs.files)
    ∧ ((src.isFile && src.copyOk) = false →
        (copyFile dstRoot src fs).1.files = fs.files) := by
  constructor
  · intro h
    rw [Bool.and_eq_true] at h
    obtain ⟨c, hc, hfree⟩ := StrAux.uniquePath_total
      ((mkdirP fs (targetDirOf dstRoot src.name)).paths)
      (pyJoin (targetDirOf dstRoot src.name) src.name)
      (targetDirOf dstRoot src.name) (pyStem src.name) (pySuffix src.name)
    refine ⟨c, ?_, ?_⟩
    · unfold copyFile
      rw [h.1, h.2]
      simp only [Bool.true_eq_false, if_false, hc, mkdirP_files,
        eq_self_iff_true, if_true]
    · intro hmem
      rw [show Task1.pexists ((mkdirP fs (targetDirOf dstRoot src.name)).paths) c
          = true by
        simp only [Task1.pexists, decide_eq_true_eq, DestFS.paths,
          List.mem_append, mkdirP_files]
        exact Or.inr hmem] at hfree
      cases hfree
  · intro h
    rw [Bool.and_eq_false_iff] at h
    unfold copyFile
    rcases h with h | h
    · rw [h]
      simp
    · by_cases hif : src.isFile = false
      · rw [hif]
        simp
      · rw [Bool.not_eq_false] at hif
        rw [hif, h]
        simp only [Bool.true_eq_false, if_false]
        rcases hu : uniquePath ((mkdirP fs (targetDirOf dstRoot src.name)).paths)
            (pyJoin (targetDirOf dstRoot src.name) src.name)
            (targetDirOf dstRoot src.name) (pyStem src.name) (pySuffix src.name)
          with _ | c
        · simp [hu, mkdirP_files]
        · simp [hu, mkdirP_files]

end Task1

namespace Task1

lemma guardedCopy_files (dstRoot : String) (src : SrcFile) (fs : DestFS) :
    ((src.isFile && src.copyOk) = true →
      ∃ tgt, (guardedCopy dstRoot src fs).1.files = tgt :: fs.files
        ∧ tgt ∉ fs.files
        ∧ (guardedCopy dstRoot src fs).2.1 = CopyOutcome.copied tgt)
    ∧ ((src.isFile && src.copyOk) = false →
        (guardedCopy dstRoot src fs).1.files = fs.files)
    ∧ (guardedCopy dstRoot src fs).2.2 = GatherItem.value := by
  rw [guardedCopy_eq]
  refine ⟨?_, ?_, rfl⟩
  · intro h
    obtain ⟨tgt, heq, hnew⟩ := (copyFile_cases dstRoot src fs).1 h
    exact ⟨tgt, by rw [heq], hnew, by rw [heq]⟩
  · intro h
    exact (copyFile_cases dstRoot src fs).2 h

lemma runTasks_spec (dstRoot : String) :
    ∀ (tasks : List SrcFile) (fs : DestFS),
      ((runTasks dstRoot fs tasks).1.files.length
          = fs.files.length + tasks.countP (fun f => f.isFile && f.copyOk))
      ∧ (∀ p ∈ fs.files, p ∈ (runTasks dstRoot fs tasks).1.files)
      ∧ (fs.files.Nodup → (runTasks dstRoot fs tasks).1.files.Nodup)
      ∧ List.Forall₂ (fun (t : SrcFile) (r : CopyOutcome × GatherItem) =>
            ((t.isFile && t.copyOk) = true →
              ∃ tgt, r.1 = CopyOutcome.copied tgt)
            ∧ r.2 = GatherItem.value)
          tasks (runTasks dstRoot fs tasks).2 := by
  intro tasks
  induction tasks with
  | nil =>
    intro fs
    exact ⟨by simp [runTasks], by simp [runTasks], by simp [runTasks],
      by simp [runTasks]⟩
  | cons t ts ih =>
    intro fs
    have hstep : runTasks dstRoot fs (t :: ts)
        = ((runTasks dstRoot (guardedCopy dstRoot t fs).1 ts).1,
           (guardedCopy dstRoot t fs).2
             :: (runTasks dstRoot (guardedCopy dstRoot t fs).1 ts).2) := by
      simp [runTasks]
    obtain ⟨ihlen, ihmem, ihnodup, ihrel⟩ := ih (guardedCopy dstRoot t fs).1
    obtain ⟨hcopy, hskip, hval⟩ := guardedCopy_files dstRoot t fs
    rw [hstep]
    by_cases hb : (t.isFile && t.copyOk) = true
    · obtain ⟨tgt, hfiles, hnew, hout⟩ := hcopy hb
      refine ⟨?_, ?_, ?_, ?_⟩
      · rw [ihlen, hfiles, List.countP_cons, hb]
        simp [List.length_cons]
        omega
      · intro p hp
        exact ihmem p (by rw [hfiles]; exact List.mem_cons_of_mem tgt hp)
      · intro hnd
        exact ihnodup (by rw [hfiles]; exact List.Nodup.cons hnew hnd)
      · exact List.Forall₂.cons ⟨fun _ => ⟨tgt, hout⟩, hval⟩ ihrel
    · have hb' : (t.isFile && t.copyOk) = false := Bool.eq_false_iff.mpr hb
      have hfiles := hskip hb'
      refine ⟨?_, ?_, ?_, ?_⟩
      · rw [ihlen, hfiles, List.countP_cons, hb']
        simp
      · intro p hp
        exact ihmem p (by rw [hfiles]; exact hp)
      · intro hnd
        exact ihnodup (by rw [hfiles]; exact hnd)
      · exact List.Forall₂.cons
          ⟨fun hcontra => absurd hcontra (by rw [hb']; exact Bool.false_ne_true),
           hval⟩ ihrel

lemma forall₂_no_exceptions
    {tasks : List SrcFile} {results : List (CopyOutcome × GatherItem)}
    (h : List.Forall₂ (fun (t : SrcFile) (r : CopyOutcome × GatherItem) =>
          ((t.isFile && t.copyOk) = true → ∃ tgt, r.1 = CopyOutcome.copied tgt)
          ∧ r.2 = GatherItem.value) tasks results) :
    results.countP (fun p => p.2 = GatherItem.exception) = 0 := by
  induction h with
  | nil => rfl
  | cons hr _ ihc =>
    rename_i a b l₁ l₂ _
    rw [List.countP_cons, ihc, hr.2]
    simp

end Task1

/-- **C7**: if the source root does not exist or is not a directory,
`read_folder` reports the corresponding error and returns at once: the
destination state is untouched (not even the destination root is
created). -/
theorem C7_invalid_source_no_work (t : Task1.SrcTree) (d : String)
    (fs : Task1.DestFS)
    (h : t.rootExists = false ∨ t.rootIsDir = false) :
    (Task1.read_folder t d fs).1 = fs
    ∧ ((Task1.read_folder t d fs).2 = Task1.RunReport.srcMissing
       ∨ (Task1.read_folder t d fs).2 = Task1.RunReport.srcNotDir) := by
  unfold Task1.read_folder
  rcases h with h | h
  · rw [h]
    simp
  · by_cases he : t.rootExists = false
    · rw [he]
      simp
    · rw [Bool.not_eq_false] at he
      rw [he, h]
      simp

/-- Witness for C7 at a concrete missing source root. -/
theorem C7_invalid_source_no_work_witness :
    (Task1.read_folder ⟨false, true, []⟩ "dst" ⟨[], []⟩).1 = ⟨[], []⟩
    ∧ ((Task1.read_folder ⟨false, true, []⟩ "dst" ⟨[], []⟩).2
          = Task1.RunReport.srcMissing
       ∨ (Task1.read_folder ⟨false, true, []⟩ "dst" ⟨[], []⟩).2
          = Task1.RunReport.srcNotDir) :=
  C7_invalid_source_no_work ⟨false, true, []⟩ "dst" ⟨[], []⟩ (Or.inl rfl)

/-- **C9**: a valid but empty enumeration reports "no files found" and
creates only the destination root: the destination files are untouched
and the only possibly new directory is the destination root itself. -/
theorem C9_empty_enumeration_only_root (t : Task1.SrcTree) (d : String)
    (fs : Task1.DestFS)
    (h1 : t.rootExists = true) (h2 : t.rootIsDir = true)
    (h3 : Task1.enumerate t = []) :
    (Task1.read_folder t d fs).1.files = fs.files
    ∧ (∀ p ∈ (Task1.read_folder t d fs).1.dirs, p = d ∨ p ∈ fs.dirs)
    ∧ (Task1.read_folder t d fs).2 = Task1.RunReport.noFiles := by
  unfold Task1.read_folder
  rw [h1, h2, h3]
  simp only [Bool.true_eq_false, if_false, List.isEmpty_nil, if_true]
  exact ⟨Task1.mkdirP_files fs d, Task1.mkdirP_dirs_mem fs d, trivial⟩

/-- Witness for C9 at a concrete empty source tree. -/
theorem C9_empty_enumeration_only_root_witness :
    (Task1.read_folder ⟨true, true, []⟩ "dst" ⟨["x"], ["y"]⟩).1.files = ["y"]
    ∧ (∀ p ∈ (Task1.read_folder ⟨true, true, []⟩ "dst" ⟨["x"], ["y"]⟩).1.dirs,
        p = "dst" ∨ p ∈ ["x"])
    ∧ (Task1.read_folder ⟨true, true, []⟩ "dst" ⟨["x"], ["y"]⟩).2
        = Task1.RunReport.noFiles :=
  C9_empty_enumeration_only_root ⟨true, true, []⟩ "dst" ⟨["x"], ["y"]⟩
    rfl rfl rfl

/-- **C5**: every per-file failure is caught at the unit boundary — the
guarded copy always hands `asyncio.gather` a value, never an exception —
and a failing file affects no other unit: every enumerated regular file
whose own copy succeeds is still copied (the destination gains exactly
one file for each such unit), and no existing destination file is
lost. -/
theorem C5_failure_isolation (d : String) (fs : Task1.DestFS)
    (tasks : List Task1.SrcFile) :
    (∀ (s : Task1.SrcFile) (fs0 : Task1.DestFS),
      (Task1.guardedCopy d s fs0).2.2 = Task1.GatherItem.value)
    ∧ (Task1.runTasks d fs tasks).1.files.length
        = fs.files.length + tasks.countP (fun f => f.isFile && f.copyOk)
    ∧ (∀ p ∈ fs.files, p ∈ (Task1.runTasks d fs tasks).1.files) := by
  obtain ⟨hlen, hmem, _, _⟩ := Task1.runTasks_spec d tasks fs
  exact ⟨fun s fs0 => (Task1.guardedCopy_files d s fs0).2.2, hlen, hmem⟩

/-- **C1, counterexample**: one file is enumerated, still exists and is
a regular file when its unit runs (it never disappears), but its
`shutil.copy2` raises — the run creates zero destination files, while
the claim, whose only carve-out is disappearance before processing,
demands exactly one new destination file for it. -/
theorem C1_counterexample :
    (Task1.enumerate
        ⟨true, true, [⟨"s", "a.txt", true, true, false⟩]⟩).length = 1
    ∧ (⟨"s", "a.txt", true, true, false⟩ : Task1.SrcFile).existsAtWalk = true
    ∧ (⟨"s", "a.txt", true, true, false⟩ : Task1.SrcFile).isFile = true
    ∧ (Task1.read_folder
        ⟨true, true, [⟨"s", "a.txt", true, true, false⟩]⟩
        "dst" ⟨[], []⟩).1.files.length = 0
    ∧ (0 : Nat) ≠ 1 := by
  refine ⟨by decide, by decide, by decide, by decide, by decide⟩

/-- **C1 as amended**: under the sequential (serialized) execution of
units modelled here — the scope in which the spec's check-then-create
naming race cannot fire — every enumerated source file that is still a
regular file when its unit runs *and whose copy does not raise a
per-file I/O error* is copied exactly once: the destination gains
exactly one new file per such file; a file that disappeared before its
unit or whose copy raised contributes none; previously existing
destination files all survive, and no destination path is written twice
(no-duplicate preservation). -/
theorem C1_amended_copied_once_unless_vanished_or_failed
    (t : Task1.SrcTree) (d : String) (fs : Task1.DestFS)
    (h1 : t.rootExists = true) (h2 : t.rootIsDir = true) :
    (Task1.read_folder t d fs).1.files.length
        = fs.files.length
          + (Task1.enumerate t).countP (fun f => f.isFile && f.copyOk)
    ∧ (∀ p ∈ fs.files, p ∈ (Task1.read_folder t d fs).1.files)
    ∧ (fs.files.Nodup → (Task1.read_folder t d fs).1.files.Nodup) := by
  unfold Task1.read_folder
  rw [h1, h2]
  simp only [Bool.true_eq_false, if_false]
  by_cases he : (Task1.enumerate t).isEmpty = true
  · rw [he]
    rw [List.isEmpty_iff] at he
    simp only [if_true]
    refine ⟨?_, ?_, ?_⟩
    · rw [Task1.mkdirP_files, he]
      simp
    · intro p hp
      rw [Task1.mkdirP_files]
      exact hp
    · intro hnd
      rw [Task1.mkdirP_files]
      exact hnd
  · rw [Bool.not_eq_true] at he
    rw [he]
    simp only [Bool.false_eq_true, if_false]
    obtain ⟨hlen, hmem, hnodup, _⟩ :=
      Task1.runTasks_spec d (Task1.enumerate t) (Task1.mkdirP fs d)
    rw [Task1.mkdirP_files] at hlen hmem hnodup
    exact ⟨hlen, hmem, hnodup⟩

/-- Witness for C1-as-amended: a run with one ordinary file, one file
whose copy fails and one file that vanished before its unit creates
exactly one new destination file. -/
theorem C1_amended_copied_once_witness :
    (Task1.read_folder
        ⟨true, true, [⟨"s", "a.txt", true, true, true⟩,
          ⟨"s", "b.TXT", true, true, false⟩,
          ⟨"s", "gone", true, false, true⟩]⟩ "dst" ⟨[], []⟩).1.files.length
      = ([] : List String).length
        + (Task1.enumerate
            ⟨true, true, [⟨"s", "a.txt", true, true, true⟩,
              ⟨"s", "b.TXT", true, true, false⟩,
              ⟨"s", "gone", true, false, true⟩]⟩).countP
          (fun f => f.isFile && f.copyOk) :=
  (C1_amended_copied_once_unless_vanished_or_failed
    ⟨true, true, [⟨"s", "a.txt", true, true, true⟩,
      ⟨"s", "b.TXT", true, true, false⟩,
      ⟨"s", "gone", true, false, true⟩]⟩ "dst" ⟨[], []⟩
    rfl rfl).1

/-- **C4, counterexample**: in a run of two enumerated files whose second
copy fails, the completion summary is `done 2 2 0` — the "processed"
figure is the task count (2), not the success count (1), and the
run-level exception scan counts 0 while exactly 1 per-file copy failure
occurred.  So the summary does not report the number successfully
processed, and its failure count does not equal the number of per-file
copy failures. -/
theorem C4_counterexample :
    (Task1.read_folder
        ⟨true, true, [⟨"s", "a.txt", true, true, true⟩,
          ⟨"s", "b.txt", true, true, false⟩]⟩ "dst" ⟨[], []⟩).2
      = Task1.RunReport.done 2 2 0
    ∧ ((Task1.runTasks "dst" (Task1.mkdirP ⟨[], []⟩ "dst")
          (Task1.enumerate ⟨true, true, [⟨"s", "a.txt", true, true, true⟩,
            ⟨"s", "b.txt", true, true, false⟩]⟩)).2.countP
        (fun p => Task1.isRaised p.1) = 1)
    ∧ ((Task1.runTasks "dst" (Task1.mkdirP ⟨[], []⟩ "dst")
          (Task1.enumerate ⟨true, true, [⟨"s", "a.txt", true, true, true⟩,
            ⟨"s", "b.txt", true, true, false⟩]⟩)).2.countP
        (fun p => Task1.isCopied p.1) = 1)
    ∧ (2 : Nat) ≠ 1 ∧ (0 : Nat) ≠ 1 := by
  refine ⟨by decide, by decide, by decide, by decide, by decide⟩

/-- **C4 as amended**: the completion summary reports the number of files
found and reports as "processed" that same task count — regardless of how
many units actually succeeded — and its run-level exception count is
always 0, because every per-file failure is swallowed inside the guarded
unit before `asyncio.gather` sees it; per-file failures are only logged,
never counted into the summary. -/
theorem C4_amended_summary_counts (t : Task1.SrcTree) (d : String)
    (fs : Task1.DestFS)
    (h1 : t.rootExists = true) (h2 : t.rootIsDir = true)
    (h3 : Task1.enumerate t ≠ []) :
    (Task1.read_folder t d fs).2
      = Task1.RunReport.done (Task1.enumerate t).length
          (Task1.enumerate t).length 0 := by
  unfold Task1.read_folder
  rw [h1, h2]
  simp only [Bool.true_eq_false, if_false]
  have he : (Task1.enumerate t).isEmpty = false :=
    List.isEmpty_eq_false.mpr h3
  rw [he]
  simp only [Bool.false_eq_true, if_false]
  obtain ⟨_, _, _, hrel⟩ :=
    Task1.runTasks_spec d (Task1.enumerate t) (Task1.mkdirP fs d)
  rw [Task1.forall₂_no_exceptions hrel]

/-- Witness for C4-as-amended: one of two files fails, yet the summary is
`done 2 2 0`. -/
theorem C4_amended_summary_counts_witness :
    (Task1.read_folder
        ⟨true, true, [⟨"s", "a.txt", true, true, true⟩,
          ⟨"s", "b.txt", true, true, false⟩]⟩ "d2" ⟨[], []⟩).2
      = Task1.RunReport.done
          (Task1.enumerate ⟨true, true, [⟨"s", "a.txt", true, true, true⟩,
            ⟨"s", "b.txt", true, true, false⟩]⟩).length
          (Task1.enumerate ⟨true, true, [⟨"s", "a.txt", true, true, true⟩,
            ⟨"s", "b.txt", true, true, false⟩]⟩).length 0 :=
  C4_amended_summary_counts
    ⟨true, true, [⟨"s", "a.txt", true, true, true⟩,
      ⟨"s", "b.txt", true, true, false⟩]⟩ "d2" ⟨[], []⟩
    rfl rfl (by decide)

/-- **C8**: the Unique-Name Resolver terminates on every finite set of
existing destination paths: the counter search reaches a free candidate
within the supplied fuel and returns it (the run's only unbounded loop
always yields a result). -/
theorem C8_resolver_terminates (fs : List String) (path p s x : String) :
    ∃ c, Task1.uniquePath fs path p s x = some c
      ∧ Task1.pexists fs c = false :=
  StrAux.uniquePath_total fs path p s x

/-- **C3**: the Resolver returns the desired path unchanged when it is
absent; otherwise it returns the candidate `"{stem} ({n}){suffix}"` for
the smallest counter `n ≥ 1` whose candidate is absent; in both cases the
returned path is absent at the time of the check (no overwrite under
sequential execution). -/
theorem C3_resolver_returns_fresh_path (fs : List String)
    (path p s x : String) :
    (Task1.pexists fs path = false →
      Task1.uniquePath fs path p s x = some path)
    ∧ (Task1.pexists fs path = true →
        ∃ n₀, Task1.uniquePath fs path p s x
            = some (Task1.candidate p s x n₀)
          ∧ 1 ≤ n₀
          ∧ Task1.pexists fs (Task1.candidate p s x n₀) = false
          ∧ ∀ k, 1 ≤ k → k < n₀ →
              Task1.pexists fs (Task1.candidate p s x k) = true)
    ∧ (∀ q, Task1.uniquePath fs path p s x = some q →
        Task1.pexists fs q = false) := by
  refine ⟨?_, ?_, ?_⟩
  · intro h
    unfold Task1.uniquePath
    rw [h]
    simp
  · intro h
    unfold Task1.uniquePath
    rw [h]
    obtain ⟨n₀, heq, hge, hfree, hleast⟩ :=
      StrAux.uniquePathAux_spec fs p s x (fs.length + 1) 1
        (StrAux.exists_free_candidate fs p s x 1)
    exact ⟨n₀, by rw [if_pos rfl]; exact heq, hge, hfree, hleast⟩
  · intro q hq
    obtain ⟨c, hc, hfree⟩ := StrAux.uniquePath_total fs path p s x
    rw [hc] at hq
    injection hq with hq
    rw [← hq]
    exact hfree

/-- Witness for C3, on the spec's own scenario: the bucket already holds
`dst/txt/a.txt`, so resolving that desired path yields the first free
counter candidate. -/
theorem C3_resolver_returns_fresh_path_witness :
    Task1.pexists ["dst/txt/a.txt"] "dst/txt/a.txt" = true
    ∧ ∃ n₀, Task1.uniquePath ["dst/txt/a.txt"] "dst/txt/a.txt" "dst/txt"
          "a" ".txt"
        = some (Task1.candidate "dst/txt" "a" ".txt" n₀)
      ∧ 1 ≤ n₀
      ∧ Task1.pexists ["dst/txt/a.txt"]
          (Task1.candidate "dst/txt" "a" ".txt" n₀) = false
      ∧ ∀ k, 1 ≤ k → k < n₀ →
          Task1.pexists ["dst/txt/a.txt"]
            (Task1.candidate "dst/txt" "a" ".txt" k) = true :=
  ⟨by decide,
   (C3_resolver_returns_fresh_path ["dst/txt/a.txt"] "dst/txt/a.txt"
      "dst/txt" "a" ".txt").2.1 (by decide)⟩

namespace StrAux

lemma ofNat_ne_dot : ∀ k < 123, 97 ≤ k → Char.ofNat k ≠ '.' := by decide

lemma toLower_dot : Char.toLower '.' = '.' := by decide

lemma toLower_ne_dot (c : Char) (h : c ≠ '.') : Char.toLower c ≠ '.' := by
  unfold Char.toLower
  by_cases hc : c.toNat ≥ 65 ∧ c.toNat ≤ 90
  · rw [if_pos hc]
    exact ofNat_ne_dot (c.toNat + 32) (by omega) (by omega)
  · rw [if_neg hc]
    exact h

lemma lastDotIdx_none : ∀ (s : List Char), Task1.lastDotIdx s = none →
    '.' ∉ s := by
  intro s
  induction s with
  | nil =>
    intro _
    simp
  | cons c cs ih =>
    intro h
    unfold Task1.lastDotIdx at h
    rcases hcs : Task1.lastDotIdx cs with _ | j
    · rw [hcs] at h
      by_cases hc : c = '.'
      · rw [if_pos hc] at h
        cases h
      · intro hmem
        rcases List.mem_cons.mp hmem with he | he
        · exact hc he.symm
        · exact ih hcs he
    · rw [hcs] at h
      cases h

lemma lastDotIdx_drop : ∀ (s : List Char) (i : Nat),
    Task1.lastDotIdx s = some i →
    ∃ rest, s.drop i = '.' :: rest ∧ '.' ∉ rest := by
  intro s
  induction s with
  | nil =>
    intro i h
    cases h
  | cons c cs ih =>
    intro i h
    unfold Task1.lastDotIdx at h
    rcases hcs : Task1.lastDotIdx cs with _ | j
    · rw [hcs] at h
      by_cases hc : c = '.'
      · rw [if_pos hc] at h
        injection h with h
        rw [← h, List.drop_zero, hc]
        exact ⟨cs, rfl, lastDotIdx_none cs hcs⟩
      · rw [if_neg hc] at h
        cases h
    · rw [hcs] at h
      injection h with h
      obtain ⟨rest, hdrop, hnd⟩ := ih j hcs
      refine ⟨rest, ?_, hnd⟩
      rw [← h, List.drop_succ_cons]
      exact hdrop

end StrAux

/-- **C2, counterexample**: for the trailing-dot name `"a."` the code's
bucket is the sentinel `"no_extension"`, while the claim's rule — the
lowercase of the text after the last `'.'`, with the sentinel exactly
when there is no `'.'` or only a leading one — yields `""`.  The claim's
"exactly when" condition therefore mis-describes the code. -/
theorem C2_counterexample :
    Task1.bucketName "a." = "no_extension"
    ∧ SpecC2.claimBucket "a." = ""
    ∧ Task1.bucketName "a." ≠ SpecC2.claimBucket "a." := by
  refine ⟨by decide, by decide, by decide⟩

/-- **C2 as amended**: the computed bucket equals the lowercase of the
text after the last `'.'` whenever that dot is neither the leading nor
the trailing character of the name, and the sentinel `"no_extension"`
otherwise; and files whose names classify to the same bucket are routed
to the same bucket directory.  (The classifier is a pure total Lean
function, so it has no side effects or failure modes.) -/
theorem C2_amended_classifier :
    (∀ name, Task1.bucketName name = SpecC2.amendedBucket name)
    ∧ (∀ d n₁ n₂, Task1.bucketName n₁ = Task1.bucketName n₂ →
        Task1.targetDirOf d n₁ = Task1.targetDirOf d n₂) := by
  constructor
  · intro name
    rcases h : Task1.lastDotIdx name.data with _ | i
    · have hps : Task1.pySuffix name = "" := by
        simp only [Task1.pySuffix, h]
      unfold Task1.bucketName SpecC2.amendedBucket
      rw [hps, h]
      rfl
    · by_cases hcond : 0 < i ∧ i + 1 < name.data.length
      · have hps : Task1.pySuffix name = String.mk (name.data.drop i) := by
          simp only [Task1.pySuffix, h]
          rw [if_pos hcond]
        obtain ⟨rest, hdrop, hnd⟩ := StrAux.lastDotIdx_drop name.data i h
        have hlen : name.data.length - i = rest.length + 1 := by
          have hl := congrArg List.length hdrop
          rwa [List.length_drop, List.length_cons] at hl
        rcases rest with _ | ⟨r0, rs⟩
        · exfalso
          simp only [List.length_nil] at hlen
          omega
        · have hr0 : r0 ≠ '.' := by
            intro he
            exact hnd (by rw [he]; exact List.mem_cons_self '.' rs)
          have hdrop1 : name.data.drop (i + 1) = r0 :: rs := by
            rw [← List.drop_drop, hdrop]
            rfl
          have he : Task1.lstripDots (Task1.strLower (String.mk ('.' :: r0 :: rs)))
              = Task1.strLower (String.mk (r0 :: rs)) := by
            show String.mk ((('.' :: r0 :: rs).map Char.toLower).dropWhile
                  (fun c => c = '.'))
                = String.mk ((r0 :: rs).map Char.toLower)
            apply congrArg
            simp only [List.map_cons]
            rw [StrAux.toLower_dot]
            rw [List.dropWhile_cons_of_pos (by decide)]
            rw [List.dropWhile_cons_of_neg (by
              simp only [decide_eq_true_eq]
              exact StrAux.toLower_ne_dot r0 hr0)]
          have hne : Task1.strLower (String.mk (r0 :: rs)) ≠ "" := by
            intro hcontra
            have h2 : (r0 :: rs).map Char.toLower = ([] : List Char) :=
              congrArg String.data hcontra
            simp at h2
          unfold Task1.bucketName SpecC2.amendedBucket
          rw [hps, h]
          show (if Task1.lstripDots (Task1.strLower
                  (String.mk (List.drop i name.data))) = ""
              then "no_extension"
              else Task1.lstripDots (Task1.strLower
                  (String.mk (List.drop i name.data))))
            = if 0 < i ∧ i + 1 < name.data.length
              then Task1.strLower (String.mk (List.drop (i + 1) name.data))
              else "no_extension"
          rw [if_pos hcond, hdrop, hdrop1, he, if_neg hne]
      · have hps : Task1.pySuffix name = "" := by
          simp only [Task1.pySuffix, h]
          rw [if_neg hcond]
        unfold Task1.bucketName SpecC2.amendedBucket
        rw [hps, h]
        show (if Task1.lstripDots (Task1.strLower "") = ""
            then "no_extension"
            else Task1.lstripDots (Task1.strLower ""))
          = if 0 < i ∧ i + 1 < name.data.length
            then Task1.strLower (String.mk (List.drop (i + 1) name.data))
            else "no_extension"
        rw [if_neg hcond]
        rfl
  · intro d n₁ n₂ hb
    unfold Task1.targetDirOf
    rw [hb]

/-- Witness for C2-as-amended: `"a.txt"` and `"b.TXT"` classify to the
same bucket, hence are routed to the same bucket directory. -/
theorem C2_amended_classifier_witness :
    Task1.bucketName "b.TXT" = Task1.bucketName "a.txt"
    ∧ Task1.targetDirOf "dst" "b.TXT" = Task1.targetDirOf "dst" "a.txt" :=
  ⟨by decide, C2_amended_classifier.2 "dst" "b.TXT" "a.txt" (by decide)⟩

namespace Task1

lemma runningCount_replicate (k : Nat) :
    runningCount (List.replicate k UnitPhase.waiting) = 0 := by
  induction k with
  | zero => rfl
  | succ k ih =>
    rw [List.replicate_succ]
    unfold runningCount at ih ⊢
    rw [List.countP_cons]
    simp [ih]

lemma runningCount_append_cons (l r : List UnitPhase) (u : UnitPhase) :
    runningCount (l ++ u :: r)
      = runningCount l + runningCount r
        + (if u = UnitPhase.running then 1 else 0) := by
  unfold runningCount
  rw [List.countP_append, List.countP_cons]
  by_cases hu : u = UnitPhase.running
  · simp [hu]
    omega
  · simp [hu]

lemma pool_invariant (N : Nat) :
    ∀ s, PoolReachable N s → s.1 + runningCount s.2 = N := by
  intro s h
  induction h with
  | start k =>
    simp [runningCount_replicate]
  | step hr hs ih =>
    cases hs with
    | acquire sem l r =>
      rw [runningCount_append_cons] at ih ⊢
      simp at ih ⊢
      omega
    | releaseOk sem l r =>
      rw [runningCount_append_cons] at ih ⊢
      simp at ih ⊢
      omega
    | releaseErr sem l r =>
      rw [runningCount_append_cons] at ih ⊢
      simp at ih ⊢
      omega

end Task1

/-- **C6**: for every configured concurrency `N ≥ 1`, in every state the
pool can reach from `Semaphore(N)`, at most `N` units are inside their
copy step simultaneously; the gate is acquired right before the copy step
(`PoolStep.acquire`) and released unconditionally afterwards, on success
(`PoolStep.releaseOk`) and on failure (`PoolStep.releaseErr`) alike. -/
theorem C6_concurrency_bound (N sem : Nat)
    (units : List Task1.UnitPhase) (_hN : 1 ≤ N)
    (h : Task1.PoolReachable N (sem, units)) :
    Task1.runningCount units ≤ N := by
  have hinv := Task1.pool_invariant N (sem, units) h
  simp only at hinv
  omega

/-- Witness for C6: with concurrency 1 and two scheduled units, the state
after one acquisition has one running unit, within the bound. -/
theorem C6_concurrency_bound_witness :
    1 ≤ 1
    ∧ Task1.runningCount [Task1.UnitPhase.running, Task1.UnitPhase.waiting]
        ≤ 1 :=
  ⟨le_refl 1,
   C6_concurrency_bound 1 0
     [Task1.UnitPhase.running, Task1.UnitPhase.waiting] (le_refl 1)
     (Task1.PoolReachable.step (Task1.PoolReachable.start 2)
       (Task1.PoolStep.acquire 0 [] [Task1.UnitPhase.waiting]))⟩

namespace Task2

lemma lookup_shuffleInsert (acc : List (String × List Nat)) (k' : String)
    (v : Nat) (k : String) :
    List.lookup k (shuffleInsert acc (k', v))
      = if k = k' then
          (match List.lookup k acc with
           | some vs => some (vs ++ [v])
           | none => some [v])
        else List.lookup k acc := by
  induction acc with
  | nil =>
    by_cases hk : k = k'
    · have hb : (k == k') = true := beq_iff_eq.mpr hk
      simp [shuffleInsert, List.lookup, hb, hk]
    · have hb : (k == k') = false := beq_eq_false_iff_ne.mpr hk
      simp [shuffleInsert, List.lookup, hb, hk]
  | cons hd tl ih =>
    rcases hd with ⟨k₀, vs₀⟩
    by_cases h0 : k₀ = k'
    · simp only [shuffleInsert, if_pos h0]
      by_cases hk : k = k₀
      · have hb : (k == k₀) = true := beq_iff_eq.mpr hk
        have hb2 : (k' == k₀) = true := beq_iff_eq.mpr h0.symm
        have hk' : k = k' := hk.trans h0
        simp [List.lookup, hb, hb2, hk']
      · have hb : (k == k₀) = false := beq_eq_false_iff_ne.mpr hk
        have hk' : ¬ k = k' := fun he => hk (he.trans h0.symm)
        simp [List.lookup, hb, hk']
    · simp only [shuffleInsert, if_neg h0]
      by_cases hk : k = k₀
      · have hb : (k == k₀) = true := beq_iff_eq.mpr hk
        have hk' : ¬ k = k' := fun he => h0 (hk.symm.trans he)
        simp [List.lookup, hb, hk']
      · have hb : (k == k₀) = false := beq_eq_false_iff_ne.mpr hk
        simp [List.lookup, hb, ih]

lemma lookup_shuffle_fold (k : String) :
    ∀ (pairs : List (String × Nat)) (acc : List (String × List Nat)),
      List.lookup k (pairs.foldl shuffleInsert acc)
        = match List.lookup k acc with
          | some vs =>
            some (vs ++ (pairs.filter (fun p => p.1 = k)).map Prod.snd)
          | none =>
            if (pairs.filter (fun p => p.1 = k)).isEmpty
            then none
            else some ((pairs.filter (fun p => p.1 = k)).map Prod.snd) := by
  intro pairs
  induction pairs with
  | nil =>
    intro acc
    rcases hl : List.lookup k acc with _ | vs
    · simp [hl]
    · simp [hl]
  | cons p ps ih =>
    intro acc
    rcases p with ⟨k₁, v⟩
    rw [List.foldl_cons, ih (shuffleInsert acc (k₁, v)),
      lookup_shuffleInsert acc k₁ v k]
    by_cases hk : k = k₁
    · have hfilter : ((k₁, v) :: ps).filter (fun p => p.1 = k)
          = (k₁, v) :: ps.filter (fun p => p.1 = k) := by
        simp [List.filter_cons, hk]
      rw [if_pos hk, hfilter]
      rcases hl : List.lookup k acc with _ | vs
      · simp
      · simp
    · have hfilter : ((k₁, v) :: ps).filter (fun p => p.1 = k)
          = ps.filter (fun p => p.1 = k) := by
        simp only [List.filter_cons]
        rw [if_neg (by simp [decide_eq_true_eq]; exact fun he => hk he.symm)]
      rw [if_neg hk, hfilter]

lemma lookup_map_reduce_fn (k : String) :
    ∀ (l : List (String × List Nat)),
      List.lookup k (l.map reduce_function)
        = (List.lookup k l).map List.sum := by
  intro l
  induction l with
  | nil => rfl
  | cons hd tl ih =>
    rcases hd with ⟨k₀, vs⟩
    by_cases hk : k = k₀
    · have hb : (k == k₀) = true := beq_iff_eq.mpr hk
      simp [reduce_function, List.lookup, hb]
    · have hb : (k == k₀) = false := beq_eq_false_iff_ne.mpr hk
      simp [reduce_function, List.lookup, hb, ih]

lemma filter_map_one (k : String) :
    ∀ (ws : List String),
      ((ws.map map_function).filter (fun p => p.1 = k)).map Prod.snd
        = List.replicate (ws.count k) 1 := by
  intro ws
  induction ws with
  | nil => rfl
  | cons w ws ih =>
    by_cases hw : w = k
    · simp only [List.map_cons, map_function, List.filter_cons]
      rw [if_pos (by simp [hw]), List.map_cons, ih, List.count_cons,
        if_pos (by simp [hw])]
      rw [List.replicate_succ]
    · simp only [List.map_cons, map_function, List.filter_cons]
      rw [if_neg (by simp [hw]), ih, List.count_cons,
        if_neg (by simp; exact fun he => hw he), Nat.add_zero]

end Task2

/-- **C10, counterexample**: with the nonempty word list `["a"]` and the
*empty* restriction set, `map_reduce` still counts `"a"` (Python's
`if restrict_to:` treats the empty set as "no restriction"), while the
claim — only words belonging to the given restriction set may appear —
demands an empty result. -/
theorem C10_counterexample :
    List.lookup "a" (Task2.map_reduce ["a"] (some [])) = some 1
    ∧ Task2.specFiltered ["a"] (some []) = []
    ∧ List.lookup "a" (Task2.map_reduce ["a"] (some []))
        ≠ (if "a" ∈ Task2.specFiltered ["a"] (some [])
           then some ((Task2.specFiltered ["a"] (some [])).count "a")
           else none) := by
  refine ⟨by decide, by decide, by decide⟩

/-- **C10 as amended**: `map_reduce` is a direct frequency count of the
words it actually processes — all words when no restriction is given *or
when the given restriction set is empty* (Python truthiness), and the
restricted words otherwise: each processed word maps to its exact number
of occurrences and no other key appears. -/
theorem C10_amended_map_reduce_counts (words : List String)
    (restrict_to : Option (List String)) (w : String) :
    List.lookup w (Task2.map_reduce words restrict_to)
      = if w ∈ Task2.effectiveWords words restrict_to
        then some ((Task2.effectiveWords words restrict_to).count w)
        else none := by
  unfold Task2.map_reduce Task2.shuffle_function
  rw [Task2.lookup_map_reduce_fn, Task2.lookup_shuffle_fold]
  rw [show List.lookup w ([] : List (String × List Nat)) = none from rfl]
  by_cases hmem : w ∈ Task2.effectiveWords words restrict_to
  · have hcnt : (Task2.effectiveWords words restrict_to).count w ≠ 0 := by
      rw [ne_eq, List.count_eq_zero]
      exact fun hc => hc hmem
    have hne : ((Task2.effectiveWords words restrict_to).map
          Task2.map_function).filter (fun p => p.1 = w) ≠ [] := by
      intro hnil
      have := Task2.filter_map_one w (Task2.effectiveWords words restrict_to)
      rw [hnil] at this
      rcases hc : (Task2.effectiveWords words restrict_to).count w with _ | n
      · exact hcnt hc
      · rw [hc, List.replicate_succ] at this
        cases this
    have hempty : (((Task2.effectiveWords words restrict_to).map
          Task2.map_function).filter (fun p => p.1 = w)).isEmpty = false := by
      rw [List.isEmpty_eq_false]
      exact hne
    rw [hempty]
    simp only [Bool.false_eq_true, if_false, if_pos hmem,
      Task2.filter_map_one]
    simp [List.sum_replicate]
  · have hcnt : (Task2.effectiveWords words restrict_to).count w = 0 :=
      List.count_eq_zero.mpr hmem
    have hnil : ((Task2.effectiveWords words restrict_to).map
          Task2.map_function).filter (fun p => p.1 = w) = [] := by
      have hmap := Task2.filter_map_one w (Task2.effectiveWords words restrict_to)
      rw [hcnt] at hmap
      exact List.map_eq_nil_iff.mp hmap
    rw [hnil]
    simp [hmem]

/-- Witness for C5: in a two-file run whose second copy fails, the
destination still gains exactly one file — the failing unit removed
nothing from its sibling. -/
theorem C5_failure_isolation_witness :
    (Task1.runTasks "dst" ⟨[], []⟩
        [⟨"s", "a.txt", true, true, true⟩,
         ⟨"s", "b.txt", true, true, false⟩]).1.files.length
      = ([] : List String).length
        + List.countP (fun f => f.isFile && f.copyOk)
            [(⟨"s", "a.txt", true, true, true⟩ : Task1.SrcFile),
             ⟨"s", "b.txt", true, true, false⟩] :=
  (C5_failure_isolation "dst" ⟨[], []⟩
    [⟨"s", "a.txt", true, true, true⟩,
     ⟨"s", "b.txt", true, true, false⟩]).2.1
